import Mathlib

/-!
A shallow embedding of the `radiotap` crate (rossmacarthur/radiotap), a parser
for the radiotap capture format, together with proofs about its behaviour.

The embedding follows the current-generation sources: `src/bytes.rs` (the
bounds-checked byte cursor), `src/lib.rs` (the preamble parser `Iter::new`, the
walker `Iter::next` / `skip` / `skip_vns` / `read`, the filtered
`IterDefault`, and the convenience `parse`), `src/field/mcs.rs` (the MCS
field), and `src/field/kind.rs` (the field-kind alignment/size table).  The
legacy preamble parser `Header::from_bytes` from `src/field/mod.rs` is also
embedded for comparison.

Machine integers are modelled as `Nat`; byte values are combined exactly as
the little-endian `from_le_bytes` decoding does.  Fallible operations return
an explicit result type; the `fatal` constructor models a Rust panic (the
`assert!` inside `Bytes::align` is its only source in the embedded walker).
-/

namespace Radiotap

/-- A cursor over a slice of bytes: `Bytes` from `src/bytes.rs`.  `inner` is
the borrowed byte slice, `pos` the current offset. -/
structure Bytes where
  inner : List Nat
  pos : Nat
deriving Repr, DecidableEq

/-- `Bytes::new`. -/
def Bytes.new (bytes : List Nat) : Bytes := ⟨bytes, 0⟩

/-- `Bytes::len`: the total length of the original underlying buffer. -/
def Bytes.len (b : Bytes) : Nat := b.inner.length

/-- The error struct of `src/bytes.rs`: `size` bytes were wanted at position
`pos` of a buffer of length `len`. -/
structure BError where
  size : Nat
  len : Nat
  pos : Nat
deriving Repr, DecidableEq

/-- Outcome of a byte-cursor operation.  `ok` and `err` carry the cursor as it
stands after the call (Rust mutates `&mut self`; on the error path the
early-return of `?` leaves it untouched, so `err` always carries the cursor
unchanged).  `fatal` models a Rust panic. -/
inductive BRes (α : Type) where
  | ok (a : α) (b : Bytes)
  | err (e : BError) (b : Bytes)
  | fatal
deriving Repr, DecidableEq

/-- `Bytes::checked_pos` combined with `Bytes::set_pos`: move to `newPos`
after checking it against the buffer length. -/
def Bytes.setPos (b : Bytes) (newPos : Nat) : BRes Unit :=
  if newPos > b.len then .err ⟨newPos - b.pos, b.len, b.pos⟩ b
  else .ok () ⟨b.inner, newPos⟩

/-- The alignment values accepted by the `assert!` in `Bytes::align`. -/
def validAlign (a : Nat) : Bool :=
  a == 1 || a == 2 || a == 4 || a == 8 || a == 16

/-- `Bytes::align`: round `pos` up to the next multiple of `a`.  The source
computes `(pos + align - 1) & !(align - 1)`; for the power-of-two alignments
admitted by the assertion this mask equals subtracting the remainder, which is
how it is written here over `Nat`.  An alignment outside {1, 2, 4, 8, 16}
fires the assertion: `fatal`. -/
def Bytes.align (b : Bytes) (a : Nat) : BRes Unit :=
  if validAlign a then b.setPos (b.pos + a - 1 - (b.pos + a - 1) % a)
  else .fatal

/-- `Bytes::advance`: move the cursor forward over `size` bytes. -/
def Bytes.advance (b : Bytes) (size : Nat) : BRes Unit :=
  b.setPos (b.pos + size)

/-- `Bytes::read_slice`: return the `size` bytes at the cursor and advance
past them. -/
def Bytes.readSlice (b : Bytes) (size : Nat) : BRes (List Nat) :=
  if b.pos + size > b.len then .err ⟨size, b.len, b.pos⟩ b
  else .ok ((b.inner.drop b.pos).take size) ⟨b.inner, b.pos + size⟩

/-- Little-endian recombination of a byte list, as `from_le_bytes` does. -/
def leVal : List Nat → Nat
  | [] => 0
  | byte :: rest => byte + 256 * leVal rest

/-- Map the value of a successful byte-cursor operation. -/
def BRes.map (f : α → β) : BRes α → BRes β
  | .ok a b => .ok (f a) b
  | .err e b => .err e b
  | .fatal => .fatal

/-- A primitive little-endian integer read of `n` bytes: the `impl_primitive!`
instances of `FromBytes` in `src/bytes.rs` (`read_slice` + `from_le_bytes`). -/
def Bytes.readLE (b : Bytes) (n : Nat) : BRes Nat :=
  (b.readSlice n).map leVal

/-- Reinterpret a byte as a signed `i8` value (two's complement). -/
def toI8 (v : Nat) : Int :=
  if v < 128 then (v : Int) else (v : Int) - 256

/-!  The field-kind table. -/

/-- Modelled from the spec: the field-kind enumeration `field::Type` of the
crate's current field module, which is not among the provided sources (only
its generator macro `impl_kind!` in `src/field/_macros.rs`, its callers in
`src/lib.rs`, and the legacy `Kind` table in `src/field/kind.rs` are).  Its
variants, presence bits, alignments and sizes follow the spec's field-kind
table, which agrees with `src/field/kind.rs`. -/
inductive FType where
  | tsft
  | flags
  | rate
  | channel
  | fhss
  | antennaSignal
  | antennaNoise
  | lockQuality
  | txAttenuation
  | txAttenuationDb
  | txPower
  | antenna
  | antennaSignalDb
  | antennaNoiseDb
  | rxFlags
  | txFlags
  | rtsRetries
  | dataRetries
  | xchannel
  | mcs
  | ampduStatus
  | vht
  | timestamp
deriving Repr, DecidableEq

/-- `Type::from_bit`: resolve a presence bit to a field kind; `none` for a
bit with no corresponding kind. -/
def FType.fromBit (bit : Nat) : Option FType :=
  match bit with
  | 0 => some .tsft
  | 1 => some .flags
  | 2 => some .rate
  | 3 => some .channel
  | 4 => some .fhss
  | 5 => some .antennaSignal
  | 6 => some .antennaNoise
  | 7 => some .lockQuality
  | 8 => some .txAttenuation
  | 9 => some .txAttenuationDb
  | 10 => some .txPower
  | 11 => some .antenna
  | 12 => some .antennaSignalDb
  | 13 => some .antennaNoiseDb
  | 14 => some .rxFlags
  | 15 => some .txFlags
  | 16 => some .rtsRetries
  | 17 => some .dataRetries
  | 18 => some .xchannel
  | 19 => some .mcs
  | 20 => some .ampduStatus
  | 21 => some .vht
  | 22 => some .timestamp
  | _ => none

/-- `Type::bit`: the presence bit of a field kind. -/
def FType.bit (t : FType) : Nat :=
  match t with
  | .tsft => 0
  | .flags => 1
  | .rate => 2
  | .channel => 3
  | .fhss => 4
  | .antennaSignal => 5
  | .antennaNoise => 6
  | .lockQuality => 7
  | .txAttenuation => 8
  | .txAttenuationDb => 9
  | .txPower => 10
  | .antenna => 11
  | .antennaSignalDb => 12
  | .antennaNoiseDb => 13
  | .rxFlags => 14
  | .txFlags => 15
  | .rtsRetries => 16
  | .dataRetries => 17
  | .xchannel => 18
  | .mcs => 19
  | .ampduStatus => 20
  | .vht => 21
  | .timestamp => 22

/-- `Kind::align` for `Type` (values as in `src/field/kind.rs`): the required
alignment of the field body. -/
def FType.align (t : FType) : Nat :=
  match t with
  | .tsft | .timestamp => 8
  | .xchannel | .ampduStatus => 4
  | .channel | .fhss | .lockQuality | .txAttenuation | .txAttenuationDb
  | .rxFlags | .txFlags | .vht => 2
  | _ => 1

/-- `Kind::size` for `Type` (values as in `src/field/kind.rs`): the byte size
of the field body. -/
def FType.size (t : FType) : Nat :=
  match t with
  | .vht | .timestamp => 12
  | .tsft | .ampduStatus | .xchannel => 8
  | .channel => 4
  | .mcs => 3
  | .fhss | .lockQuality | .txAttenuation | .txAttenuationDb
  | .rxFlags | .txFlags => 2
  | _ => 1

/-!  Shared field sub-types. -/

/-- Modelled from the spec: `GuardInterval` of the crate's current field
module (absent from the provided sources; the legacy `src/field/ext.rs` has
the same two variants).  `into_inner` is 0 for long, 1 for short — the MCS
rate-table column offset. -/
inductive GuardInterval where
  | long
  | short
deriving Repr, DecidableEq

/-- `GuardInterval::from_bool`: a set guard-interval flag bit means short. -/
def GuardInterval.fromBool (b : Bool) : GuardInterval :=
  if b then .short else .long

/-- `GuardInterval::into_inner`. -/
def GuardInterval.intoInner : GuardInterval → Nat
  | .long => 0
  | .short => 1

/-- Modelled from the spec: the FEC type `Fec` of the crate's current field
module (absent from the provided sources).  `from_bool`: a set FEC flag bit
means LDPC, clear means BCC (as in every provided variant of the decoder). -/
inductive Fec where
  | bcc
  | ldpc
deriving Repr, DecidableEq

/-- `Fec::from_bool`. -/
def Fec.fromBool (b : Bool) : Fec :=
  if b then .ldpc else .bcc

/-!  The MCS field, from `src/field/mcs.rs`. -/

/-- `mcs::Bandwidth`: raw two-bit bandwidth code. -/
inductive Bandwidth where
  | bw20
  | bw40
  | bw20L
  | bw20U
deriving Repr, DecidableEq

/-- `Bandwidth::from_bits` (generated by `impl_enum!`). -/
def Bandwidth.fromBits (bits : Nat) : Option Bandwidth :=
  match bits with
  | 0 => some .bw20
  | 1 => some .bw40
  | 2 => some .bw20L
  | 3 => some .bw20U
  | _ => none

/-- `Bandwidth::to_mhz`. -/
def Bandwidth.toMhz : Bandwidth → Nat
  | .bw20 => 20
  | .bw40 => 40
  | .bw20L => 40
  | .bw20U => 40

/-- `mcs::Format`, the HT format.  `From<bool>`: `false` is mixed, `true` is
greenfield. -/
inductive Format where
  | mixed
  | greenfield
deriving Repr, DecidableEq

/-- The `From<bool>` conversion for `Format` in `src/field/mcs.rs`. -/
def Format.fromBool (b : Bool) : Format :=
  if b then .greenfield else .mixed

/-- The `Mcs` field: the raw `known` bitmask byte, the raw `flags` byte and
the raw MCS `index` byte, read in that order by its derived `from_bytes`
(`#[field(align = 1, size = 3)]`).  Both bitflag types cover all eight bits of
their byte, so `from_bits_truncate` keeps the bytes verbatim. -/
structure Mcs where
  known : Nat
  flags : Nat
  index : Nat
deriving Repr, DecidableEq

/-- `Mcs::bandwidth`: present iff known bit `BW = 0x01` is set; decoded from
flag bits `BW_MASK = 0x03`.  The source unwraps `Bandwidth::from_bits`, which
cannot fail on a two-bit value (`mcs_bandwidth_unwrap_safe` below). -/
def Mcs.bandwidth (m : Mcs) : Option Bandwidth :=
  if m.known &&& 0x01 ≠ 0 then Bandwidth.fromBits (m.flags &&& 0x03) else none

/-- `Mcs::index()`: present iff known bit `INDEX = 0x02` is set. -/
def Mcs.indexOpt (m : Mcs) : Option Nat :=
  if m.known &&& 0x02 ≠ 0 then some m.index else none

/-- `Mcs::guard_interval`: present iff known bit `GI = 0x04` is set; decoded
from flag bit `GI = 0x04`. -/
def Mcs.guardInterval (m : Mcs) : Option GuardInterval :=
  if m.known &&& 0x04 ≠ 0 then some (GuardInterval.fromBool (m.flags &&& 0x04 ≠ 0))
  else none

/-- `Mcs::format`: present iff known bit `FMT = 0x08` is set; decoded from
flag bit `FMT = 0x08`. -/
def Mcs.format (m : Mcs) : Option Format :=
  if m.known &&& 0x08 ≠ 0 then some (Format.fromBool (m.flags &&& 0x08 ≠ 0))
  else none

/-- `Mcs::fec`: present iff known bit `FEC = 0x10` is set; decoded from flag
bit `FEC = 0x10`. -/
def Mcs.fec (m : Mcs) : Option Fec :=
  if m.known &&& 0x10 ≠ 0 then some (Fec.fromBool (m.flags &&& 0x10 ≠ 0))
  else none

/-- `Mcs::stbc`: present iff known bit `STBC = 0x20` is set; decoded from
flag bits `STBC_MASK = 0x60` shifted by `STBC_SHIFT = 5`. -/
def Mcs.stbc (m : Mcs) : Option Nat :=
  if m.known &&& 0x20 ≠ 0 then some ((m.flags &&& 0x60) >>> 5) else none

/-- `Mcs::ness`: present iff known bit `NESS = 0x40` is set; the value is
`(known & NESS_BIT_1) >> NESS_BIT_1_SHIFT | (flags & NESS_BIT_0) >>
NESS_BIT_0_SHIFT` with `NESS_BIT_1 = 0x80`, `NESS_BIT_1_SHIFT = 6`,
`NESS_BIT_0 = 0x80`, `NESS_BIT_0_SHIFT = 5`, exactly as in the source. -/
def Mcs.ness (m : Mcs) : Option Nat :=
  if m.known &&& 0x40 ≠ 0 then
    some ((m.known &&& 0x80) >>> 6 ||| (m.flags &&& 0x80) >>> 5)
  else none

/-- The 32-row HT rate table `RATE` of `src/field/mcs.rs`, columns are
20 MHz LGI, 20 MHz SGI, 40 MHz LGI, 40 MHz SGI.  Every `f32` entry of the
source has exactly one decimal digit and is only ever looked up and
compared, never computed with, so the table is carried exactly in tenths of
a Mbps (the source entry times 10: 6.5 Mbps is 65 here). -/
def RATE : List (List Nat) := [
  [65, 72, 135, 150],
  [130, 144, 270, 300],
  [195, 217, 405, 450],
  [260, 289, 540, 600],
  [390, 433, 810, 900],
  [520, 578, 1080, 1200],
  [585, 650, 1215, 1350],
  [650, 722, 1350, 1500],
  [130, 144, 270, 300],
  [260, 289, 540, 600],
  [390, 433, 810, 900],
  [520, 578, 1080, 1200],
  [780, 867, 1620, 1800],
  [1040, 1156, 2160, 2400],
  [1170, 1300, 2430, 2700],
  [1300, 1444, 2700, 3000],
  [195, 217, 405, 450],
  [390, 433, 810, 900],
  [585, 650, 1215, 1350],
  [780, 867, 1620, 1800],
  [1170, 1300, 2430, 2700],
  [1560, 1733, 3240, 3600],
  [1755, 1950, 3645, 4050],
  [1950, 2167, 4050, 4500],
  [260, 288, 540, 600],
  [520, 576, 1080, 1200],
  [780, 868, 1620, 1800],
  [1040, 1156, 2160, 2400],
  [1560, 1732, 3240, 3600],
  [2080, 2312, 4320, 4800],
  [2340, 2600, 4860, 5400],
  [2600, 2888, 5400, 6000]]

/-- Outcome of `Mcs::to_mbps`: absent (`None` in the source), an
`InvalidDatarate` error carrying the index, a rate (in tenths of a Mbps,
matching the scaled `RATE` table), or a panic (`unreachable!` or an
out-of-bounds `RATE` access). -/
inductive DatarateRes where
  | absent
  | invalid (idx : Nat)
  | rate (tenths : Nat)
  | fatal
deriving Repr, DecidableEq

/-- `Mcs::to_mbps`: requires the index, bandwidth and guard interval to be
known; an index above 31 is an `InvalidDatarate` error; otherwise the rate is
looked up in `RATE` by row `index` and column `b + gi` where `b` is 0 for
20 MHz and 2 for 40 MHz. -/
def Mcs.toMbps (m : Mcs) : DatarateRes :=
  match m.indexOpt with
  | none => .absent
  | some index =>
    if index > 31 then .invalid index
    else
      match m.bandwidth with
      | none => .absent
      | some bw =>
        let b : Option Nat :=
          match bw.toMhz with
          | 20 => some 0
          | 40 => some 2
          | _ => none
        match b with
        | none => .fatal
        | some b =>
          match m.guardInterval with
          | none => .absent
          | some gi =>
            match (RATE.get? index).bind (fun row => row.get? (b + gi.intoInner)) with
            | none => .fatal
            | some q => .rate q

/-!  The walker of `src/lib.rs`. -/

/-- The vendor namespace descriptor `VendorNamespace`: a 3-byte OUI, a 1-byte
sub-namespace and a little-endian `u16` skip length (`src/field/mod.rs`). -/
structure VendorNamespace where
  oui : List Nat
  subNamespace : Nat
  skipLength : Nat
deriving Repr, DecidableEq

/-- Modelled from the spec: the `FromBytes` impl for `VendorNamespace` in the
crate's current field module (absent from the provided sources); it reads the
6-byte descriptor — 3-byte OUI, `u8` sub-namespace, `u16` little-endian skip
length — exactly as the legacy impl in `src/field/mod.rs` does. -/
def VendorNamespace.fromBytes (b : Bytes) : BRes VendorNamespace :=
  match b.readSlice 3 with
  | .fatal => .fatal
  | .err e b2 => .err e b2
  | .ok oui b2 =>
    match b2.readLE 1 with
    | .fatal => .fatal
    | .err e b3 => .err e b3
    | .ok sub b3 =>
      match b3.readLE 2 with
      | .fatal => .fatal
      | .err e b4 => .err e b4
      | .ok skip b4 => .ok ⟨oui, sub, skip⟩ b4

/-- A radiotap namespace (`Namespace` in `src/lib.rs`). -/
inductive NamespaceT where
  | default
  | vendor (vns : VendorNamespace)
deriving Repr, DecidableEq

/-- A generic field yielded by the iterator (`Field` in `src/lib.rs`): the
namespace snapshot and the presence bit. -/
structure RField where
  ns : NamespaceT
  bit : Nat
deriving Repr, DecidableEq

/-- `ErrorKind` from `src/error.rs`.  `read` carries the `type_name` string of
the field type being read. -/
inductive ErrKind where
  | unsupportedVersion (v : Nat)
  | header
  | skip
  | read (name : String)
deriving Repr, DecidableEq

/-- Outcome of a walker operation: `Ok`, `Err(Error { kind, .. })`, or a
panic (`fatal`), which can only originate from the `assert!` in
`Bytes::align`. -/
inductive PRes (α : Type) where
  | ok (a : α)
  | err (e : ErrKind)
  | fatal
deriving Repr, DecidableEq

/-- Monadic composition on `PRes`, used to spell out the `?` operator. -/
def PRes.bind (r : PRes α) (f : α → PRes β) : PRes β :=
  match r with
  | .ok a => f a
  | .err e => .err e
  | .fatal => .fatal

/-- True unless the outcome is a panic. -/
def PRes.completes : PRes α → Bool
  | .fatal => false
  | _ => true

/-- The radiotap iterator `Iter` of `src/lib.rs`: the byte cursor, the
declared total length, the presence words, the flat bit position, and the
current namespace. -/
structure Iter where
  bytes : Bytes
  length : Nat
  presence : List Nat
  position : Nat
  ns : NamespaceT
deriving Repr, DecidableEq

/-- The presence-word loop inside `Iter::new`: read 32-bit words until one
with bit 31 clear.  Each iteration consumes 4 bytes, so
`capture.length + 1` units of fuel always suffice; the fuel-exhausted branch
is unreachable. -/
def presenceWords : Nat → Bytes → PRes (List Nat × Bytes)
  | 0, _ => .err .header
  | fuel + 1, b =>
    match b.readLE 4 with
    | .fatal => .fatal
    | .err _ _ => .err .header
    | .ok word b2 =>
      if word &&& (1 <<< 31) = 0 then .ok ([word], b2)
      else
        match presenceWords fuel b2 with
        | .ok (words, b3) => .ok (word :: words, b3)
        | .err e => .err e
        | .fatal => .fatal

/-- `Iter::new`: read the version byte (must be 0), skip the padding byte,
read the little-endian `u16` total length, then read the presence-word chain.
Note that the declared length is never compared against the buffer length. -/
def Iter.new (capture : List Nat) : PRes Iter :=
  match (Bytes.new capture).readLE 1 with
  | .fatal => .fatal
  | .err _ _ => .err .header
  | .ok version b =>
    if version ≠ 0 then .err (.unsupportedVersion version)
    else
      match b.advance 1 with
      | .fatal => .fatal
      | .err _ _ => .err .header
      | .ok _ b =>
        match b.readLE 2 with
        | .fatal => .fatal
        | .err _ _ => .err .header
        | .ok length b =>
          match presenceWords (capture.length + 1) b with
          | .fatal => .fatal
          | .err e => .err e
          | .ok (presence, b) => .ok ⟨b, length, presence, 0, .default⟩

/-- The loop body of `Iter::next`, with explicit fuel.  Each iteration
increments `position`, and the loop exits as soon as `position / 32` walks
off the presence words, so `32 * presence.length + 1 - position` units of
fuel make the fuel-exhausted branch (which returns end-of-fields exactly like
the exit branch) unreachable or coincident with the real exit. -/
def Iter.nextGo : Nat → Iter → PRes (Option RField × Iter)
  | 0, it => .ok (none, it)
  | fuel + 1, it =>
    match it.presence.get? (it.position / 32) with
    | none => .ok (none, it)
    | some w =>
      let bit := it.position % 32
      let it2 : Iter := { it with position := it.position + 1 }
      if w &&& (1 <<< bit) = 0 then Iter.nextGo fuel it2
      else if bit = 29 then Iter.nextGo fuel { it2 with ns := .default }
      else if bit = 30 then
        match it2.bytes.align 2 with
        | .fatal => .fatal
        | .err _ _ => .err (.read "radiotap::field::VendorNamespace")
        | .ok _ b =>
          match VendorNamespace.fromBytes b with
          | .fatal => .fatal
          | .err _ _ => .err (.read "radiotap::field::VendorNamespace")
          | .ok vns b2 => Iter.nextGo fuel { it2 with bytes := b2, ns := .vendor vns }
      else if bit = 31 then Iter.nextGo fuel it2
      else .ok (some ⟨it2.ns, bit⟩, it2)

/-- `Iter::next`. -/
def Iter.next (it : Iter) : PRes (Option RField × Iter) :=
  Iter.nextGo (32 * it.presence.length + 1 - it.position) it

/-- `Iter::skip`: align the cursor to the kind's alignment, then advance by
its size. -/
def Iter.skip (it : Iter) (t : FType) : PRes Iter :=
  match it.bytes.align t.align with
  | .fatal => .fatal
  | .err _ _ => .err .skip
  | .ok _ b =>
    match b.advance t.size with
    | .fatal => .fatal
    | .err _ _ => .err .skip
    | .ok _ b2 => .ok { it with bytes := b2 }

/-- `Iter::skip_vns`: advance the cursor by the descriptor's skip length. -/
def Iter.skipVns (it : Iter) (vns : VendorNamespace) : PRes Iter :=
  match it.bytes.advance vns.skipLength with
  | .fatal => .fatal
  | .err _ _ => .err .skip
  | .ok _ b => .ok { it with bytes := b }

/-- `Iter::read`, generic over the field decoder (`U: FromBytes` in the
source; `name` is `type_name::<U>()`): align to the kind's alignment, record
the start position, run the decoder, and fail with a read error unless it
consumed exactly the kind's size. -/
def Iter.read (it : Iter) (t : FType) (name : String) (dec : Bytes → BRes α) :
    PRes (α × Iter) :=
  match it.bytes.align t.align with
  | .fatal => .fatal
  | .err _ _ => .err (.read name)
  | .ok _ b =>
    match dec b with
    | .fatal => .fatal
    | .err _ _ => .err (.read name)
    | .ok v b2 =>
      if b2.pos - b.pos ≠ t.size then .err (.read name)
      else .ok (v, { it with bytes := b2 })

/-!  Per-field decoders used by `parse`.

The current-generation decoders obtain exactly `Kind::size` bytes and cut the
struct fields out of them at fixed offsets (`#[derive(Field, FromArray)]` for
`Mcs`, explicit slicing for the others; the sequential `bytes.read()` style
of `src/field/vht.rs` consumes the same bytes in the same order).  Bitflag
fields pass through `from_bits_truncate`, which masks to the declared bits.
Decoders for the plain newtype fields absent from the provided sources are
modelled from the spec's field list; each is a single fixed-width
little-endian read. -/

/-- The little-endian value of `n` bytes at offset `off` of a byte list. -/
def sliceLE (s : List Nat) (off n : Nat) : Nat :=
  leVal ((s.drop off).take n)

/-- Modelled from the spec: `Tsft`, a newtype over a little-endian `u64`. -/
def decodeTsft (b : Bytes) : BRes Nat := b.readLE 8

/-- Modelled from the spec: `Flags`, a `u8` bitflag field (all eight bits are
named flags, so truncation keeps the byte). -/
def decodeFlags (b : Bytes) : BRes Nat := b.readLE 1

/-- Modelled from the spec: `Rate`, a newtype over a `u8` (raw half-Mbps). -/
def decodeRate (b : Bytes) : BRes Nat := b.readLE 1

/-- The `Channel` field (`src/field/channel.rs`): `u16` frequency and `u16`
flags, truncated to the declared flag bits `0xfff0`. -/
structure Channel where
  freq : Nat
  flags : Nat
deriving Repr, DecidableEq

/-- Decoder for `Channel`. -/
def decodeChannel (b : Bytes) : BRes Channel :=
  (b.readSlice 4).map fun s => ⟨sliceLE s 0 2, sliceLE s 2 2 &&& 0xfff0⟩

/-- Modelled from the spec: `Fhss`, a hop set byte and a pattern byte (as in
the legacy `src/field/mod.rs`). -/
structure Fhss where
  hopset : Nat
  pattern : Nat
deriving Repr, DecidableEq

/-- Decoder for `Fhss`. -/
def decodeFhss (b : Bytes) : BRes Fhss :=
  (b.readSlice 2).map fun s => ⟨sliceLE s 0 1, sliceLE s 1 1⟩

/-- Modelled from the spec: `AntennaSignal` / `AntennaNoise` / `TxPower`,
newtypes over a signed `i8`. -/
def decodeI8 (b : Bytes) : BRes Int := (b.readLE 1).map toI8

/-- Modelled from the spec: the newtypes over a `u8` (`Antenna`,
`AntennaSignalDb`, `AntennaNoiseDb`). -/
def decodeU8 (b : Bytes) : BRes Nat := b.readLE 1

/-- Modelled from the spec: the newtype and bitflag fields over a
little-endian `u16` (`LockQuality`, `TxAttenuation`, `TxAttenuationDb`,
`RxFlags`, `TxFlags`). -/
def decodeU16 (b : Bytes) : BRes Nat := b.readLE 2

/-- The `XChannel` field (`src/field/xchannel.rs`): `u32` flags (truncated to
the declared bits `0x0007fff0`), `u16` frequency, channel byte and max-power
byte. -/
structure XChannel where
  flags : Nat
  freq : Nat
  channel : Nat
  maxPower : Nat
deriving Repr, DecidableEq

/-- Decoder for `XChannel`. -/
def decodeXChannel (b : Bytes) : BRes XChannel :=
  (b.readSlice 8).map fun s =>
    ⟨sliceLE s 0 4 &&& 0x0007fff0, sliceLE s 4 2, sliceLE s 6 1, sliceLE s 7 1⟩

/-- Decoder for `Mcs` (`src/field/mcs.rs`, derived with
`#[field(align = 1, size = 3)]`): known byte, flags byte, index byte. -/
def decodeMcs (b : Bytes) : BRes Mcs :=
  (b.readSlice 3).map fun s => ⟨sliceLE s 0 1, sliceLE s 1 1, sliceLE s 2 1⟩

/-- The `AmpduStatus` field (`src/field/ampdu_status.rs`): `u32` reference,
`u16` flags (truncated to the declared bits `0x00ff`) and delimiter-CRC byte;
the eighth byte is reserved. -/
structure AmpduStatus where
  reference : Nat
  flags : Nat
  delimCrc : Nat
deriving Repr, DecidableEq

/-- Decoder for `AmpduStatus`. -/
def decodeAmpduStatus (b : Bytes) : BRes AmpduStatus :=
  (b.readSlice 8).map fun s =>
    ⟨sliceLE s 0 4, sliceLE s 4 2 &&& 0x00ff, sliceLE s 6 1⟩

/-- The `Vht` field (`src/field/vht.rs`): `u16` known (truncated to
`0x01ff`), `u8` flags (truncated to `0x3f`), bandwidth byte, four `mcs_nss`
bytes, coding byte, group-id byte and `u16` partial AID. -/
structure Vht where
  known : Nat
  flags : Nat
  bandwidth : Nat
  mcsNss : List Nat
  coding : Nat
  groupId : Nat
  partialAid : Nat
deriving Repr, DecidableEq

/-- Decoder for `Vht`. -/
def decodeVht (b : Bytes) : BRes Vht :=
  (b.readSlice 12).map fun s =>
    ⟨sliceLE s 0 2 &&& 0x01ff, sliceLE s 2 1 &&& 0x3f, sliceLE s 3 1,
      (s.drop 4).take 4, sliceLE s 8 1, sliceLE s 9 1, sliceLE s 10 2⟩

/-- The `Timestamp` field (`src/field/timestamp.rs`): `u64` timestamp, `u16`
accuracy, unit/position byte and flags byte (truncated to the declared bits
`0x03`). -/
structure Timestamp where
  ts : Nat
  accuracy : Nat
  unitPosition : Nat
  flags : Nat
deriving Repr, DecidableEq

/-- Decoder for `Timestamp`. -/
def decodeTimestamp (b : Bytes) : BRes Timestamp :=
  (b.readSlice 12).map fun s =>
    ⟨sliceLE s 0 8, sliceLE s 8 2, sliceLE s 10 1, sliceLE s 11 1 &&& 0x03⟩

/-!  `IterDefault` and `parse`, from `src/lib.rs`. -/

/-- The loop body of `IterDefault::next` (the `Iter` wrapper that resolves
default-namespace bits through `Type::from_bit` and bulk-skips vendor
namespaces).  The recursion after `skip_vns` strictly advances the presence
bit position, so `32 * presence.length + 2` units of fuel make the
fuel-exhausted branch unreachable. -/
def IterDefault.nextGo : Nat → Iter → PRes (Option FType × Iter)
  | 0, _ => .err .header
  | fuel + 1, it =>
    match it.next with
    | .fatal => .fatal
    | .err e => .err e
    | .ok (none, it2) => .ok (none, it2)
    | .ok (some f, it2) =>
      match f.ns with
      | .default => .ok (FType.fromBit f.bit, it2)
      | .vendor vns =>
        match it2.skipVns vns with
        | .fatal => .fatal
        | .err e => .err e
        | .ok it3 => IterDefault.nextGo fuel it3

/-- `IterDefault::next`. -/
def IterDefault.next (it : Iter) : PRes (Option FType × Iter) :=
  IterDefault.nextGo (32 * it.presence.length + 2) it

/-- The parsed capture record `Header` of `src/lib.rs`: the total length and
one optional slot per supported field kind. -/
structure Header where
  length : Nat
  tsft : Option Nat := none
  flags : Option Nat := none
  rate : Option Nat := none
  channel : Option Channel := none
  fhss : Option Fhss := none
  antennaSignal : Option Int := none
  antennaNoise : Option Int := none
  lockQuality : Option Nat := none
  txAttenuation : Option Nat := none
  txAttenuationDb : Option Nat := none
  txPower : Option Int := none
  antenna : Option Nat := none
  antennaSignalDb : Option Nat := none
  antennaNoiseDb : Option Nat := none
  rxFlags : Option Nat := none
  txFlags : Option Nat := none
  xchannel : Option XChannel := none
  mcs : Option Mcs := none
  ampduStatus : Option AmpduStatus := none
  vht : Option Vht := none
  timestamp : Option Timestamp := none
deriving Repr, DecidableEq

/-- One arm of the `match kind` inside `parse`: read the field into its slot
(`read_some`), or skip it for the kinds `parse` does not store
(`RtsRetries`, `DataRetries`). -/
def applyField (hdr : Header) (it : Iter) (t : FType) : PRes (Header × Iter) :=
  match t with
  | .tsft =>
    (it.read t "radiotap::field::Tsft" decodeTsft).bind
      fun (v, it2) => .ok ({ hdr with tsft := some v }, it2)
  | .flags =>
    (it.read t "radiotap::field::Flags" decodeFlags).bind
      fun (v, it2) => .ok ({ hdr with flags := some v }, it2)
  | .rate =>
    (it.read t "radiotap::field::Rate" decodeRate).bind
      fun (v, it2) => .ok ({ hdr with rate := some v }, it2)
  | .channel =>
    (it.read t "radiotap::field::Channel" decodeChannel).bind
      fun (v, it2) => .ok ({ hdr with channel := some v }, it2)
  | .fhss =>
    (it.read t "radiotap::field::Fhss" decodeFhss).bind
      fun (v, it2) => .ok ({ hdr with fhss := some v }, it2)
  | .antennaSignal =>
    (it.read t "radiotap::field::AntennaSignal" decodeI8).bind
      fun (v, it2) => .ok ({ hdr with antennaSignal := some v }, it2)
  | .antennaNoise =>
    (it.read t "radiotap::field::AntennaNoise" decodeI8).bind
      fun (v, it2) => .ok ({ hdr with antennaNoise := some v }, it2)
  | .lockQuality =>
    (it.read t "radiotap::field::LockQuality" decodeU16).bind
      fun (v, it2) => .ok ({ hdr with lockQuality := some v }, it2)
  | .txAttenuation =>
    (it.read t "radiotap::field::TxAttenuation" decodeU16).bind
      fun (v, it2) => .ok ({ hdr with txAttenuation := some v }, it2)
  | .txAttenuationDb =>
    (it.read t "radiotap::field::TxAttenuationDb" decodeU16).bind
      fun (v, it2) => .ok ({ hdr with txAttenuationDb := some v }, it2)
  | .txPower =>
    (it.read t "radiotap::field::TxPower" decodeI8).bind
      fun (v, it2) => .ok ({ hdr with txPower := some v }, it2)
  | .antenna =>
    (it.read t "radiotap::field::Antenna" decodeU8).bind
      fun (v, it2) => .ok ({ hdr with antenna := some v }, it2)
  | .antennaSignalDb =>
    (it.read t "radiotap::field::AntennaSignalDb" decodeU8).bind
      fun (v, it2) => .ok ({ hdr with antennaSignalDb := some v }, it2)
  | .antennaNoiseDb =>
    (it.read t "radiotap::field::AntennaNoiseDb" decodeU8).bind
      fun (v, it2) => .ok ({ hdr with antennaNoiseDb := some v }, it2)
  | .rxFlags =>
    (it.read t "radiotap::field::RxFlags" decodeU16).bind
      fun (v, it2) => .ok ({ hdr with rxFlags := some v }, it2)
  | .txFlags =>
    (it.read t "radiotap::field::TxFlags" decodeU16).bind
      fun (v, it2) => .ok ({ hdr with txFlags := some v }, it2)
  | .xchannel =>
    (it.read t "radiotap::field::XChannel" decodeXChannel).bind
      fun (v, it2) => .ok ({ hdr with xchannel := some v }, it2)
  | .mcs =>
    (it.read t "radiotap::field::mcs::Mcs" decodeMcs).bind
      fun (v, it2) => .ok ({ hdr with mcs := some v }, it2)
  | .ampduStatus =>
    (it.read t "radiotap::field::AmpduStatus" decodeAmpduStatus).bind
      fun (v, it2) => .ok ({ hdr with ampduStatus := some v }, it2)
  | .vht =>
    (it.read t "radiotap::field::vht::Vht" decodeVht).bind
      fun (v, it2) => .ok ({ hdr with vht := some v }, it2)
  | .timestamp =>
    (it.read t "radiotap::field::Timestamp" decodeTimestamp).bind
      fun (v, it2) => .ok ({ hdr with timestamp := some v }, it2)
  | .rtsRetries => (it.skip t).bind fun it2 => .ok (hdr, it2)
  | .dataRetries => (it.skip t).bind fun it2 => .ok (hdr, it2)

/-- The `while let` loop of `parse`, with explicit fuel.  Every yield of
`IterDefault::next` strictly advances the presence bit position, so the loop
runs at most `32 * presence.length + 1` times and the fuel-exhausted branch
is unreachable with the fuel supplied by `parse`. -/
def parseGo : Nat → Header → Iter → PRes Header
  | 0, _, _ => .err .header
  | fuel + 1, hdr, it =>
    match IterDefault.next it with
    | .fatal => .fatal
    | .err e => .err e
    | .ok (none, _) => .ok hdr
    | .ok (some t, it2) =>
      match applyField hdr it2 t with
      | .fatal => .fatal
      | .err e => .err e
      | .ok (hdr2, it3) => parseGo fuel hdr2 it3

/-- `parse`: build the iterator, then fold every yielded known field into the
`Header` record. -/
def parse (capture : List Nat) : PRes Header :=
  match Iter.new capture with
  | .fatal => .fatal
  | .err e => .err e
  | .ok it => parseGo (32 * it.presence.length + 2) { length := it.length } it

/-!  The legacy preamble parser `Header::from_bytes` of `src/field/mod.rs`
(the historical variant that checks the declared length eagerly). -/

/-- The legacy error enum (the variants relevant to the preamble).  `io`
stands for the wrapped `std::io` error of a short `Cursor` read. -/
inductive LError where
  | unsupportedVersion
  | invalidLength
  | io
deriving Repr, DecidableEq

/-- The legacy `Header` struct: version, declared length, preamble size, and
the presence list (`none` models `Kind::VendorNamespace(None)`; the legacy
`Kind::new` resolves values 0–22 exactly as `FType.fromBit`). -/
structure LHeader where
  version : Nat
  length : Nat
  size : Nat
  present : List (Option FType)
deriving Repr, DecidableEq

/-- A little-endian `Cursor` read of `n` bytes at `pos`, failing like
`std::io::Read` when the input is too short. -/
def lRead (input : List Nat) (pos n : Nat) : Except LError (Nat × Nat) :=
  if pos + n > input.length then .error .io
  else .ok (sliceLE input pos n, pos + n)

/-- The kinds appended for one presence word in the legacy loop: bits 0–28 in
order, resolved through `Kind::new (present_count * 32 + bit)`, unknown
values silently dropped. -/
def lWordKinds (word presentCount : Nat) : List (Option FType) :=
  (List.range 29).filterMap fun bit =>
    if word &&& (1 <<< bit) ≠ 0 then
      match FType.fromBit (presentCount * 32 + bit) with
      | some k => some (some k)
      | none => none
    else none

/-- The presence-word loop of the legacy `Header::from_bytes`, with fuel
(each iteration consumes 4 bytes). -/
def lLoop (input : List Nat) :
    Nat → Nat → Nat → Bool → List (Option FType) →
    Except LError (Nat × List (Option FType))
  | 0, _, _, _, _ => .error .io
  | fuel + 1, pos, presentCount, vendorNs, kinds =>
    match lRead input pos 4 with
    | .error e => .error e
    | .ok (word, pos2) =>
      let kinds2 := if vendorNs then kinds else kinds ++ lWordKinds word presentCount
      let next :=
        if word &&& (1 <<< 29) ≠ 0 then (0, false, kinds2)
        else if word &&& (1 <<< 30) ≠ 0 then (0, true, kinds2 ++ [none])
        else (presentCount + 1, vendorNs, kinds2)
      if word &&& (1 <<< 31) = 0 then .ok (pos2, next.2.2)
      else lLoop input fuel pos2 next.1 next.2.1 next.2.2

/-- The legacy `Header::from_bytes`: version byte (must be 0), padding byte,
little-endian `u16` length, then the eager check that the input holds at
least `length` bytes — `InvalidLength` otherwise — before the presence-word
loop. -/
def lHeaderFromBytes (input : List Nat) : Except LError LHeader :=
  match lRead input 0 1 with
  | .error e => .error e
  | .ok (version, pos) =>
    if version ≠ 0 then .error .unsupportedVersion
    else
      match lRead input pos 1 with
      | .error e => .error e
      | .ok (_, pos) =>
        match lRead input pos 2 with
        | .error e => .error e
        | .ok (length, pos) =>
          if input.length < length then .error .invalidLength
          else
            match lLoop input (input.length + 1) pos 0 false [] with
            | .error e => .error e
            | .ok (pos, kinds) => .ok ⟨version, length, pos, kinds⟩

/-!  Helper lemmas about the byte cursor. -/

theorem setPos_ok {b : Bytes} {p : Nat} {u : Unit} {b2 : Bytes}
    (h : b.setPos p = .ok u b2) :
    b2.inner = b.inner ∧ b2.pos = p ∧ p ≤ b.len := by
  unfold Bytes.setPos at h
  split at h
  · simp at h
  · next hle =>
    simp only [BRes.ok.injEq] at h
    rw [← h.2]
    exact ⟨rfl, rfl, by omega⟩

theorem setPos_err {b : Bytes} {p : Nat} {e : BError} {b2 : Bytes}
    (h : b.setPos p = .err e b2) : b2 = b ∧ p > b.len := by
  unfold Bytes.setPos at h
  split at h
  · next hgt => simp only [BRes.err.injEq] at h; exact ⟨h.2.symm, hgt⟩
  · simp at h

theorem setPos_ne_fatal (b : Bytes) (p : Nat) : b.setPos p ≠ .fatal := by
  unfold Bytes.setPos
  split <;> simp

theorem advance_ok {b : Bytes} {n : Nat} {u : Unit} {b2 : Bytes}
    (h : b.advance n = .ok u b2) :
    b2.inner = b.inner ∧ b2.pos = b.pos + n ∧ b2.pos ≤ b2.len := by
  obtain ⟨h1, h2, h3⟩ := setPos_ok h
  exact ⟨h1, h2, by simp [Bytes.len, h1, ← h2] at *; omega⟩

theorem advance_err {b : Bytes} {n : Nat} {e : BError} {b2 : Bytes}
    (h : b.advance n = .err e b2) : b2 = b ∧ b.pos + n > b.len :=
  setPos_err h

theorem advance_ne_fatal (b : Bytes) (n : Nat) : b.advance n ≠ .fatal :=
  setPos_ne_fatal b _

theorem align_ok {b : Bytes} {a : Nat} {u : Unit} {b2 : Bytes}
    (h : b.align a = .ok u b2) :
    validAlign a = true ∧ b2.inner = b.inner ∧ b2.pos % a = 0 ∧
      b.pos ≤ b2.pos ∧ b2.pos ≤ b2.len := by
  unfold Bytes.align at h
  split at h
  · next hv =>
    obtain ⟨h1, h2, h3⟩ := setPos_ok h
    have ha : 1 ≤ a := by
      simp [validAlign] at hv
      rcases hv with _ | _ | _ | _ | _ <;> omega
    have hmod : (b.pos + a - 1) % a < a := Nat.mod_lt _ (by omega)
    have hdiv := Nat.div_add_mod (b.pos + a - 1) a
    have hlen : b2.len = b.len := by simp [Bytes.len, h1]
    refine ⟨hv, h1, ?_, by omega, by rw [hlen, h2]; exact h3⟩
    have hrw : b.pos + a - 1 - (b.pos + a - 1) % a = a * ((b.pos + a - 1) / a) := by
      omega
    rw [h2, hrw]
    exact Nat.mul_mod_right _ _
  · simp at h

theorem align_err {b : Bytes} {a : Nat} {e : BError} {b2 : Bytes}
    (h : b.align a = .err e b2) : b2 = b := by
  unfold Bytes.align at h
  split at h
  · exact (setPos_err h).1
  · simp at h

theorem align_ne_fatal {a : Nat} (hv : validAlign a = true) (b : Bytes) :
    b.align a ≠ .fatal := by
  unfold Bytes.align
  rw [hv]
  simp only [if_true]
  exact setPos_ne_fatal b _

theorem readSlice_ok {b : Bytes} {n : Nat} {s : List Nat} {b2 : Bytes}
    (h : b.readSlice n = .ok s b2) :
    b2 = ⟨b.inner, b.pos + n⟩ ∧ s = (b.inner.drop b.pos).take n ∧
      b.pos + n ≤ b.len := by
  unfold Bytes.readSlice at h
  split at h
  · simp at h
  · next hle =>
    simp only [BRes.ok.injEq] at h
    exact ⟨h.2.symm, h.1.symm, by omega⟩

theorem readSlice_err {b : Bytes} {n : Nat} {e : BError} {b2 : Bytes}
    (h : b.readSlice n = .err e b2) : b2 = b ∧ b.pos + n > b.len := by
  unfold Bytes.readSlice at h
  split at h
  · next hgt => simp only [BRes.err.injEq] at h; exact ⟨h.2.symm, hgt⟩
  · simp at h

theorem readSlice_ne_fatal (b : Bytes) (n : Nat) : b.readSlice n ≠ .fatal := by
  unfold Bytes.readSlice
  split <;> simp

theorem map_ne_fatal {r : BRes α} (h : r ≠ .fatal) (f : α → β) :
    r.map f ≠ .fatal := by
  cases r with
  | ok a b => simp [BRes.map]
  | err e b => simp [BRes.map]
  | fatal => exact absurd rfl h

theorem readLE_ne_fatal (b : Bytes) (n : Nat) : b.readLE n ≠ .fatal :=
  map_ne_fatal (readSlice_ne_fatal b n) leVal

theorem readLE_ok {b : Bytes} {n : Nat} {v : Nat} {b2 : Bytes}
    (h : b.readLE n = .ok v b2) :
    b2 = ⟨b.inner, b.pos + n⟩ ∧ v = sliceLE b.inner b.pos n ∧
      b.pos + n ≤ b.len := by
  unfold Bytes.readLE at h
  cases hs : b.readSlice n with
  | ok s b3 =>
    rw [hs] at h
    simp only [BRes.map, BRes.ok.injEq] at h
    obtain ⟨h1, h2, h3⟩ := readSlice_ok hs
    exact ⟨h.2 ▸ h1, by rw [← h.1, h2]; rfl, h3⟩
  | err e b3 => rw [hs] at h; simp [BRes.map] at h
  | fatal => exact absurd hs (readSlice_ne_fatal b n)

/-!  Helper lemmas about the field-kind table and the decoders. -/

theorem ftype_validAlign (t : FType) : validAlign t.align = true := by
  cases t <;> rfl

theorem ftype_size_pos (t : FType) : 1 ≤ t.size := by
  cases t <;> decide

theorem fromBit_unknown {bit : Nat} (h23 : 23 ≤ bit) : FType.fromBit bit = none := by
  unfold FType.fromBit
  split <;> first | rfl | omega

theorem vnsFromBytes_ok {b : Bytes} {vns : VendorNamespace} {b2 : Bytes}
    (h : VendorNamespace.fromBytes b = .ok vns b2) :
    b2 = ⟨b.inner, b.pos + 6⟩ ∧
      vns.skipLength = sliceLE b.inner (b.pos + 4) 2 ∧ b.pos + 6 ≤ b.len := by
  unfold VendorNamespace.fromBytes at h
  split at h
  · simp at h
  · simp at h
  · next oui b3 h3 =>
    obtain ⟨hb3, _, _⟩ := readSlice_ok h3
    split at h
    · simp at h
    · simp at h
    · next sub b4 h4 =>
      obtain ⟨hb4, _, _⟩ := readLE_ok h4
      split at h
      · simp at h
      · simp at h
      · next skip b5 h5 =>
        obtain ⟨hb5, hval, hle⟩ := readLE_ok h5
        simp only [BRes.ok.injEq] at h
        obtain ⟨hvns, hb2⟩ := h
        subst hb3
        subst hb4
        subst hb2
        subst hb5
        dsimp only at hval hle ⊢
        have e1 : b.pos + 3 + 1 = b.pos + 4 := by omega
        have e2 : b.pos + 3 + 1 + 2 = b.pos + 6 := by omega
        refine ⟨congrArg (Bytes.mk b.inner) e2, ?_, ?_⟩
        · rw [← hvns]
          show skip = sliceLE b.inner (b.pos + 4) 2
          rw [hval, e1]
        · simp only [Bytes.len] at hle ⊢
          omega

theorem vnsFromBytes_ne_fatal (b : Bytes) :
    VendorNamespace.fromBytes b ≠ .fatal := by
  unfold VendorNamespace.fromBytes
  split
  · next h3 => exact absurd h3 (readSlice_ne_fatal b 3)
  · simp
  · next oui b3 h3 =>
    split
    · next h4 => exact absurd h4 (readLE_ne_fatal b3 1)
    · simp
    · next sub b4 h4 =>
      split
      · next h5 => exact absurd h5 (readLE_ne_fatal b4 2)
      · simp
      · simp

theorem decodeTsft_ne_fatal (b : Bytes) : decodeTsft b ≠ .fatal :=
  readLE_ne_fatal b 8

theorem decodeFlags_ne_fatal (b : Bytes) : decodeFlags b ≠ .fatal :=
  readLE_ne_fatal b 1

theorem decodeRate_ne_fatal (b : Bytes) : decodeRate b ≠ .fatal :=
  readLE_ne_fatal b 1

theorem decodeChannel_ne_fatal (b : Bytes) : decodeChannel b ≠ .fatal :=
  map_ne_fatal (readSlice_ne_fatal b 4) _

theorem decodeFhss_ne_fatal (b : Bytes) : decodeFhss b ≠ .fatal :=
  map_ne_fatal (readSlice_ne_fatal b 2) _

theorem decodeI8_ne_fatal (b : Bytes) : decodeI8 b ≠ .fatal :=
  map_ne_fatal (readLE_ne_fatal b 1) _

theorem decodeU8_ne_fatal (b : Bytes) : decodeU8 b ≠ .fatal :=
  readLE_ne_fatal b 1

theorem decodeU16_ne_fatal (b : Bytes) : decodeU16 b ≠ .fatal :=
  readLE_ne_fatal b 2

theorem decodeXChannel_ne_fatal (b : Bytes) : decodeXChannel b ≠ .fatal :=
  map_ne_fatal (readSlice_ne_fatal b 8) _

theorem decodeMcs_ne_fatal (b : Bytes) : decodeMcs b ≠ .fatal :=
  map_ne_fatal (readSlice_ne_fatal b 3) _

theorem decodeAmpduStatus_ne_fatal (b : Bytes) : decodeAmpduStatus b ≠ .fatal :=
  map_ne_fatal (readSlice_ne_fatal b 8) _

theorem decodeVht_ne_fatal (b : Bytes) : decodeVht b ≠ .fatal :=
  map_ne_fatal (readSlice_ne_fatal b 12) _

theorem decodeTimestamp_ne_fatal (b : Bytes) : decodeTimestamp b ≠ .fatal :=
  map_ne_fatal (readSlice_ne_fatal b 12) _

/-!  Helper lemmas about the walker operations. -/

theorem skip_ok {it : Iter} {t : FType} {it2 : Iter}
    (h : it.skip t = .ok it2) :
    t.size ≤ it2.bytes.pos ∧ (it2.bytes.pos - t.size) % t.align = 0 ∧
      it2.bytes.pos ≤ it2.bytes.len := by
  unfold Iter.skip at h
  split at h
  · simp at h
  · simp at h
  · next u b1 h1 =>
    obtain ⟨_, _, hal, _, _⟩ := align_ok h1
    split at h
    · simp at h
    · simp at h
    · next u2 b2 h2 =>
      obtain ⟨hinner, hpos, hle⟩ := advance_ok h2
      simp only [PRes.ok.injEq] at h
      subst h
      simp only
      refine ⟨by omega, ?_, hle⟩
      rw [hpos, show b1.pos + t.size - t.size = b1.pos from by omega]
      exact hal

theorem skip_ne_fatal (it : Iter) (t : FType) : it.skip t ≠ .fatal := by
  unfold Iter.skip
  split
  · next h1 => exact absurd h1 (align_ne_fatal (ftype_validAlign t) _)
  · simp
  · next u b1 h1 =>
    split
    · next h2 => exact absurd h2 (advance_ne_fatal b1 t.size)
    · simp
    · simp

theorem skipVns_ok {it : Iter} {vns : VendorNamespace} {it2 : Iter}
    (h : it.skipVns vns = .ok it2) :
    it2.bytes.pos = it.bytes.pos + vns.skipLength ∧
      it2.bytes.inner = it.bytes.inner ∧ it2.bytes.pos ≤ it2.bytes.len := by
  unfold Iter.skipVns at h
  split at h
  · simp at h
  · simp at h
  · next u b1 h1 =>
    obtain ⟨hinner, hpos, hle⟩ := advance_ok h1
    simp only [PRes.ok.injEq] at h
    subst h
    exact ⟨hpos, hinner, hle⟩

theorem skipVns_fits {it : Iter} {vns : VendorNamespace}
    (h : it.bytes.pos + vns.skipLength ≤ it.bytes.len) :
    ∃ it2, it.skipVns vns = .ok it2 := by
  unfold Iter.skipVns Bytes.advance Bytes.setPos
  rw [if_neg (by omega)]
  exact ⟨_, rfl⟩

theorem skipVns_ne_fatal (it : Iter) (vns : VendorNamespace) :
    it.skipVns vns ≠ .fatal := by
  unfold Iter.skipVns
  split
  · next h1 => exact absurd h1 (advance_ne_fatal _ _)
  · simp
  · simp

theorem read_ok {α : Type} {it : Iter} {t : FType} {name : String}
    {dec : Bytes → BRes α} {v : α} {it2 : Iter}
    (h : it.read t name dec = .ok (v, it2)) :
    t.size ≤ it2.bytes.pos ∧ (it2.bytes.pos - t.size) % t.align = 0 := by
  unfold Iter.read at h
  split at h
  · simp at h
  · simp at h
  · next u b1 h1 =>
    obtain ⟨_, _, hal, _, _⟩ := align_ok h1
    split at h
    · simp at h
    · simp at h
    · next v2 b2 h2 =>
      split at h
      · simp at h
      · next hsize =>
        simp only [PRes.ok.injEq, Prod.mk.injEq] at h
        obtain ⟨_, h⟩ := h
        subst h
        simp only at hsize ⊢
        have hp := ftype_size_pos t
        have : b2.pos = b1.pos + t.size := by omega
        rw [this]
        refine ⟨by omega, ?_⟩
        rw [show b1.pos + t.size - t.size = b1.pos from by omega]
        exact hal

theorem read_ne_fatal {α : Type} (it : Iter) (t : FType) (name : String)
    {dec : Bytes → BRes α} (hdec : ∀ b, dec b ≠ .fatal) :
    it.read t name dec ≠ .fatal := by
  unfold Iter.read
  split
  · next h1 => exact absurd h1 (align_ne_fatal (ftype_validAlign t) _)
  · simp
  · next u b1 h1 =>
    split
    · next h2 => exact absurd h2 (hdec b1)
    · simp
    · split <;> simp

theorem nextGo_yield : ∀ (fuel : Nat) (it it2 : Iter) (f : RField),
    Iter.nextGo fuel it = .ok (some f, it2) → f.bit ≤ 28 ∧ f.ns = it2.ns := by
  intro fuel
  induction fuel with
  | zero => intro it it2 f h; simp [Iter.nextGo] at h
  | succ n ih =>
    intro it it2 f h
    simp only [Iter.nextGo] at h
    split at h
    · simp at h
    · next w hw =>
      by_cases h0 : w &&& (1 <<< (it.position % 32)) = 0
      · rw [if_pos h0] at h; exact ih _ _ _ h
      · rw [if_neg h0] at h
        by_cases h29 : it.position % 32 = 29
        · rw [if_pos h29] at h; exact ih _ _ _ h
        · rw [if_neg h29] at h
          by_cases h30 : it.position % 32 = 30
          · rw [if_pos h30] at h
            split at h
            · simp at h
            · simp at h
            · split at h
              · simp at h
              · simp at h
              · exact ih _ _ _ h
          · rw [if_neg h30] at h
            by_cases h31 : it.position % 32 = 31
            · rw [if_pos h31] at h; exact ih _ _ _ h
            · rw [if_neg h31] at h
              simp only [PRes.ok.injEq, Prod.mk.injEq, Option.some.injEq] at h
              obtain ⟨hf, hit⟩ := h
              subst hf
              subst hit
              have hlt : it.position % 32 < 32 := Nat.mod_lt _ (by omega)
              refine ⟨?_, rfl⟩
              show it.position % 32 ≤ 28
              omega

theorem nextGo_ne_fatal : ∀ (fuel : Nat) (it : Iter),
    Iter.nextGo fuel it ≠ .fatal := by
  intro fuel
  induction fuel with
  | zero => intro it; simp [Iter.nextGo]
  | succ n ih =>
    intro it
    simp only [Iter.nextGo]
    split
    · simp
    · split
      · exact ih _
      · split
        · exact ih _
        · split
          · split
            · next hb => exact absurd hb (align_ne_fatal (by decide) _)
            · simp
            · split
              · next hv => exact absurd hv (vnsFromBytes_ne_fatal _)
              · simp
              · exact ih _
          · split
            · exact ih _
            · simp

theorem nextGo_step29 {it : Iter} {w : Nat}
    (hw : it.presence.get? (it.position / 32) = some w)
    (hbit : it.position % 32 = 29) (hset : w &&& (1 <<< 29) ≠ 0) (fuel : Nat) :
    Iter.nextGo (fuel + 1) it =
      Iter.nextGo fuel { it with position := it.position + 1, ns := .default } := by
  simp only [Iter.nextGo, hw, hbit]
  rw [if_neg hset]
  simp only [if_true]

theorem nextGo_step31 {it : Iter} {w : Nat}
    (hw : it.presence.get? (it.position / 32) = some w)
    (hbit : it.position % 32 = 31) (hset : w &&& (1 <<< 31) ≠ 0) (fuel : Nat) :
    Iter.nextGo (fuel + 1) it =
      Iter.nextGo fuel { it with position := it.position + 1 } := by
  simp only [Iter.nextGo, hw, hbit]
  rw [if_neg hset]
  simp

theorem nextGo_step30 {it : Iter} {w : Nat} {u : Unit} {b1 b2 : Bytes}
    {vns : VendorNamespace}
    (hw : it.presence.get? (it.position / 32) = some w)
    (hbit : it.position % 32 = 30) (hset : w &&& (1 <<< 30) ≠ 0)
    (hAl : it.bytes.align 2 = .ok u b1)
    (hVns : VendorNamespace.fromBytes b1 = .ok vns b2) (fuel : Nat) :
    Iter.nextGo (fuel + 1) it =
      Iter.nextGo fuel
        { it with position := it.position + 1, bytes := b2, ns := .vendor vns } := by
  simp only [Iter.nextGo, hw, hbit]
  rw [if_neg hset]
  simp [hAl, hVns]

theorem presenceWords_ne_fatal : ∀ (fuel : Nat) (b : Bytes),
    presenceWords fuel b ≠ .fatal := by
  intro fuel
  induction fuel with
  | zero => intro b; simp [presenceWords]
  | succ n ih =>
    intro b
    simp only [presenceWords]
    split
    · next hr => exact absurd hr (readLE_ne_fatal b 4)
    · simp
    · split
      · simp
      · split
        · simp
        · simp
        · next hr => exact absurd hr (ih _)

theorem iterNew_ne_fatal (capture : List Nat) : Iter.new capture ≠ .fatal := by
  unfold Iter.new
  split
  · next hr => exact absurd hr (readLE_ne_fatal _ 1)
  · simp
  · split
    · simp
    · split
      · next hr => exact absurd hr (advance_ne_fatal _ 1)
      · simp
      · split
        · next hr => exact absurd hr (readLE_ne_fatal _ 2)
        · simp
        · split
          · next hr => exact absurd hr (presenceWords_ne_fatal _ _)
          · simp
          · simp

theorem next_ne_fatal (it : Iter) : it.next ≠ .fatal :=
  nextGo_ne_fatal _ it

theorem idNextGo_ne_fatal : ∀ (fuel : Nat) (it : Iter),
    IterDefault.nextGo fuel it ≠ .fatal := by
  intro fuel
  induction fuel with
  | zero => intro it; simp [IterDefault.nextGo]
  | succ n ih =>
    intro it
    simp only [IterDefault.nextGo]
    split
    · next hr => exact absurd hr (next_ne_fatal it)
    · simp
    · simp
    · split
      · simp
      · split
        · next hr => exact absurd hr (skipVns_ne_fatal _ _)
        · simp
        · exact ih _

theorem bind_ne_fatal {α β : Type} {r : PRes α} {f : α → PRes β}
    (hr : r ≠ .fatal) (hf : ∀ a, f a ≠ .fatal) : r.bind f ≠ .fatal := by
  cases r with
  | ok a => exact hf a
  | err e => simp [PRes.bind]
  | fatal => exact absurd rfl hr

theorem applyField_ne_fatal (hdr : Header) (it : Iter) (t : FType) :
    applyField hdr it t ≠ .fatal := by
  cases t <;>
    first
    | exact bind_ne_fatal (read_ne_fatal _ _ _ decodeTsft_ne_fatal)
        (fun a => by rcases a with ⟨v, it2⟩; simp)
    | exact bind_ne_fatal (read_ne_fatal _ _ _ decodeFlags_ne_fatal)
        (fun a => by rcases a with ⟨v, it2⟩; simp)
    | exact bind_ne_fatal (read_ne_fatal _ _ _ decodeRate_ne_fatal)
        (fun a => by rcases a with ⟨v, it2⟩; simp)
    | exact bind_ne_fatal (read_ne_fatal _ _ _ decodeChannel_ne_fatal)
        (fun a => by rcases a with ⟨v, it2⟩; simp)
    | exact bind_ne_fatal (read_ne_fatal _ _ _ decodeFhss_ne_fatal)
        (fun a => by rcases a with ⟨v, it2⟩; simp)
    | exact bind_ne_fatal (read_ne_fatal _ _ _ decodeI8_ne_fatal)
        (fun a => by rcases a with ⟨v, it2⟩; simp)
    | exact bind_ne_fatal (read_ne_fatal _ _ _ decodeU8_ne_fatal)
        (fun a => by rcases a with ⟨v, it2⟩; simp)
    | exact bind_ne_fatal (read_ne_fatal _ _ _ decodeU16_ne_fatal)
        (fun a => by rcases a with ⟨v, it2⟩; simp)
    | exact bind_ne_fatal (read_ne_fatal _ _ _ decodeXChannel_ne_fatal)
        (fun a => by rcases a with ⟨v, it2⟩; simp)
    | exact bind_ne_fatal (read_ne_fatal _ _ _ decodeMcs_ne_fatal)
        (fun a => by rcases a with ⟨v, it2⟩; simp)
    | exact bind_ne_fatal (read_ne_fatal _ _ _ decodeAmpduStatus_ne_fatal)
        (fun a => by rcases a with ⟨v, it2⟩; simp)
    | exact bind_ne_fatal (read_ne_fatal _ _ _ decodeVht_ne_fatal)
        (fun a => by rcases a with ⟨v, it2⟩; simp)
    | exact bind_ne_fatal (read_ne_fatal _ _ _ decodeTimestamp_ne_fatal)
        (fun a => by rcases a with ⟨v, it2⟩; simp)
    | exact bind_ne_fatal (skip_ne_fatal _ _) (fun a => by simp)

theorem parseGo_ne_fatal : ∀ (fuel : Nat) (hdr : Header) (it : Iter),
    parseGo fuel hdr it ≠ .fatal := by
  intro fuel
  induction fuel with
  | zero => intro hdr it; simp [parseGo]
  | succ n ih =>
    intro hdr it
    simp only [parseGo]
    split
    · next hr => exact absurd hr (idNextGo_ne_fatal _ it)
    · simp
    · simp
    · split
      · next hr => exact absurd hr (applyField_ne_fatal _ _ _)
      · simp
      · exact ih _ _

theorem parse_ne_fatal (capture : List Nat) : parse capture ≠ .fatal := by
  unfold parse
  split
  · next h => exact absurd h (iterNew_ne_fatal capture)
  · simp
  · exact parseGo_ne_fatal _ _ _

/-!  The claim theorems. -/

/-- C1: the claim says that an input whose declared `total_length` (the
little-endian `u16` at offset 2) exceeds the buffer length makes `Iter::new`
— and hence `parse` — fail eagerly with an InvalidLength error.  The current
`Iter::new` in `src/lib.rs` performs no such check (even though its own doc
comment promises one, and its `ErrorKind` has no InvalidLength variant at
all); only the legacy `Header::from_bytes` of `src/field/mod.rs` does.  On
the 8-byte input declaring a 255-byte header, the legacy parser fails with
InvalidLength while `Iter::new` and `parse` both succeed. -/
theorem c1_lengthGate :
    lHeaderFromBytes [0, 0, 255, 0, 0, 0, 0, 0] = .error .invalidLength
    ∧ Iter.new [0, 0, 255, 0, 0, 0, 0, 0]
        = .ok ⟨⟨[0, 0, 255, 0, 0, 0, 0, 0], 8⟩, 255, [0], 0, .default⟩
    ∧ parse [0, 0, 255, 0, 0, 0, 0, 0] = .ok { length := 255 }
    ∧ ([0, 0, 255, 0, 0, 0, 0, 0] : List Nat).length < 255 := by
  refine ⟨by rfl, by decide, by decide, by decide⟩

/-- C2: alignment before reading or skipping.  For every iterator state and
field kind, a successful pre-read alignment lands on a multiple of the
kind's alignment; a successful `skip` advanced by exactly the kind's size
from an offset that was a multiple of the alignment; and whatever decoder a
successful `read` ran, it was invoked at an offset (namely the final offset
minus the kind's size, which `read` checks) that is ≡ 0 mod the kind's
alignment. -/
theorem c2_alignment : ∀ (it : Iter) (t : FType),
    (∀ u b2, it.bytes.align t.align = .ok u b2 → b2.pos % t.align = 0)
    ∧ (∀ it2, it.skip t = .ok it2 →
        t.size ≤ it2.bytes.pos ∧ (it2.bytes.pos - t.size) % t.align = 0)
    ∧ ∀ (α : Type) (name : String) (dec : Bytes → BRes α) (v : α) (it2 : Iter),
        it.read t name dec = .ok (v, it2) →
        t.size ≤ it2.bytes.pos ∧ (it2.bytes.pos - t.size) % t.align = 0 := by
  intro it t
  refine ⟨?_, ?_, ?_⟩
  · intro u b2 h
    exact (align_ok h).2.2.1
  · intro it2 h
    exact ⟨(skip_ok h).1, (skip_ok h).2.1⟩
  · intro α name dec v it2 h
    exact read_ok h

/-- Witness for C2 at a concrete state: a cursor at offset 3 over 16 bytes,
kind `Channel` (alignment 2, size 4): alignment lands at 4 and skipping ends
at 8. -/
theorem c2_alignment_witness :
    (4 : Nat) % 2 = 0 ∧ (4 : Nat) ≤ 8 ∧ ((8 : Nat) - 4) % 2 = 0 := by
  have h := c2_alignment
    ⟨⟨[0, 0, 0, 0, 0, 0, 0, 0, 0, 0, 0, 0, 0, 0, 0, 0], 3⟩, 0, [], 0, .default⟩
    .channel
  refine ⟨?_, ?_⟩
  · exact h.1 () ⟨[0, 0, 0, 0, 0, 0, 0, 0, 0, 0, 0, 0, 0, 0, 0, 0], 4⟩ (by decide)
  · exact h.2.1
      ⟨⟨[0, 0, 0, 0, 0, 0, 0, 0, 0, 0, 0, 0, 0, 0, 0, 0], 8⟩, 0, [], 0, .default⟩
      (by decide)

/-- Counterexample for C3 as stated: an MCS field with index 31, 40 MHz
bandwidth and short guard interval does NOT yield 150.0 Mbps (1500 tenths;
it yields 600.0, see the amended theorem — 150.0 is the 40 MHz/SGI rate of
MCS index 7, row 7 of the table, not of index 31). -/
theorem c3_datarate_counterexample :
    (Mcs.mk 0x07 0x05 31).toMbps ≠ DatarateRes.rate 1500 := by decide

/-- C3, amended: an MCS field with known index 31, known 40 MHz-equivalent
bandwidth flags and known short guard interval yields 600.0 Mbps (6000
tenths — the last row, last column of the 32-row rate table); and for any
known/flags bytes with the INDEX known-bit set, an index byte of 32 yields
the InvalidDatarate error — the out-of-range check precedes the table
lookup, so no out-of-bounds access and no panic occurs. -/
theorem c3_datarate :
    (Mcs.mk 0x07 0x05 31).toMbps = DatarateRes.rate 6000
    ∧ ∀ known flags : Nat, known &&& 0x02 ≠ 0 →
        (Mcs.mk known flags 32).toMbps = DatarateRes.invalid 32 := by
  refine ⟨by decide, ?_⟩
  intro known flags h
  unfold Mcs.toMbps Mcs.indexOpt
  rw [if_pos h]
  simp

/-- Witness for C3's universal part at known = 0x02, flags = 0. -/
theorem c3_datarate_witness :
    (Mcs.mk 0x02 0x00 32).toMbps = DatarateRes.invalid 32 :=
  c3_datarate.2 0x02 0x00 (by decide)

/-- C4: with only the GI known-bit (0x04) set in the known byte, the
bandwidth, index, format and FEC accessors are all absent regardless of the
flags and index bytes, while the guard interval is present. -/
theorem c4_knownGating : ∀ flags index : Nat,
    (Mcs.mk 0x04 flags index).bandwidth = none
    ∧ (Mcs.mk 0x04 flags index).indexOpt = none
    ∧ (Mcs.mk 0x04 flags index).format = none
    ∧ (Mcs.mk 0x04 flags index).fec = none
    ∧ ((Mcs.mk 0x04 flags index).guardInterval).isSome = true := by
  intro flags index
  refine ⟨?_, ?_, ?_, ?_, ?_⟩ <;>
    simp [Mcs.bandwidth, Mcs.indexOpt, Mcs.format, Mcs.fec, Mcs.guardInterval] <;>
    decide

/-- C5: the claim says `ness()` combines the known byte's 0x80 bit as value
2 and the flags byte's 0x80 bit as value 1.  The code shifts the flags bit
by `NESS_BIT_0_SHIFT = 5`, producing value 4 instead of 1 (so for known =
0x40, flags = 0x80 the result is `Some(4)` — outside the two-bit NESS
range).  The high bit (value 2) and the absent case match the claim. -/
theorem c5_ness :
    (Mcs.mk 0x40 0x80 0x00).ness = some 4
    ∧ (Mcs.mk 0xc0 0x00 0x00).ness = some 2
    ∧ (Mcs.mk 0x00 0x80 0x00).ness = none := by
  refine ⟨by decide, by decide, by decide⟩

/-- C6: `Iter::next` never yields a field with bit 29, 30 or 31 — every
yielded field has bit ≤ 28, carrying a snapshot of the namespace current at
the yield — and the control bits merely drive the walker state: a set bit
29 switches the namespace back to default and continues, a set bit 31 is
consumed silently and continues (bit 30 is covered by the vendor-namespace
theorem). -/
theorem c6_controlBits : ∀ (fuel : Nat) (it it2 : Iter) (f : RField) (w : Nat),
    (Iter.next it = .ok (some f, it2) → f.bit ≤ 28 ∧ f.ns = it2.ns)
    ∧ (Iter.nextGo fuel it = .ok (some f, it2) → f.bit ≤ 28 ∧ f.ns = it2.ns)
    ∧ (it.presence.get? (it.position / 32) = some w →
        (it.position % 32 = 29 → w &&& (1 <<< 29) ≠ 0 →
          Iter.nextGo (fuel + 1) it =
            Iter.nextGo fuel { it with position := it.position + 1, ns := .default })
        ∧ (it.position % 32 = 31 → w &&& (1 <<< 31) ≠ 0 →
          Iter.nextGo (fuel + 1) it =
            Iter.nextGo fuel { it with position := it.position + 1 })) := by
  intro fuel it it2 f w
  exact ⟨fun h => nextGo_yield _ _ _ _ h, fun h => nextGo_yield _ _ _ _ h,
    fun hw => ⟨fun hb hs => nextGo_step29 hw hb hs fuel,
      fun hb hs => nextGo_step31 hw hb hs fuel⟩⟩

/-- Witness for C6: a one-word presence bitmap with bit 0 set yields the
field with bit 0 in the default namespace; and at position 29 of a word with
bit 29 set, one step of the walker just switches the namespace. -/
theorem c6_controlBits_witness :
    ((0 : Nat) ≤ 28 ∧ NamespaceT.default = NamespaceT.default)
    ∧ Iter.nextGo 1 ⟨⟨[], 0⟩, 0, [536870912], 29, .default⟩ =
        Iter.nextGo 0 ⟨⟨[], 0⟩, 0, [536870912], 30, .default⟩ := by
  constructor
  · exact (c6_controlBits 0 ⟨⟨[], 0⟩, 0, [1], 0, .default⟩
      ⟨⟨[], 0⟩, 0, [1], 1, .default⟩ ⟨.default, 0⟩ 0).1 (by decide)
  · exact ((c6_controlBits 0 ⟨⟨[], 0⟩, 0, [536870912], 29, .default⟩
      ⟨⟨[], 0⟩, 0, [536870912], 29, .default⟩ ⟨.default, 0⟩
      536870912).2.2 (by decide)).1 (by decide) (by decide)

/-- C7: the vendor-namespace path.  (a) the descriptor decoder consumes
exactly 6 bytes and its skip length is the little-endian `u16` at offset 4
of the descriptor; (b) when the walker consumes a set presence bit 30, it
aligns the cursor to 2 (an even offset) and continues with the cursor just
past the 6-byte descriptor and the namespace switched to the vendor
namespace just read; (c) `skip_vns` advances the cursor by exactly the
descriptor's skip length — so after it the cursor sits exactly
`skip_length` bytes past the end of the descriptor; (d) `skip_vns` succeeds
for every skip length that fits in the buffer. -/
theorem c7_vendorSkip : ∀ (it it2 : Iter) (w : Nat) (u : Unit)
    (b b1 b2 : Bytes) (vns : VendorNamespace) (fuel : Nat),
    (VendorNamespace.fromBytes b = .ok vns b2 →
        b2 = ⟨b.inner, b.pos + 6⟩ ∧
          vns.skipLength = sliceLE b.inner (b.pos + 4) 2)
    ∧ (it.presence.get? (it.position / 32) = some w → it.position % 32 = 30 →
        w &&& (1 <<< 30) ≠ 0 → it.bytes.align 2 = .ok u b1 →
        VendorNamespace.fromBytes b1 = .ok vns b2 →
        b1.pos % 2 = 0 ∧
          Iter.nextGo (fuel + 1) it =
            Iter.nextGo fuel
              { it with position := it.position + 1, bytes := b2, ns := .vendor vns })
    ∧ (it.skipVns vns = .ok it2 →
        it2.bytes.pos = it.bytes.pos + vns.skipLength ∧
          it2.bytes.inner = it.bytes.inner)
    ∧ (it.bytes.pos + vns.skipLength ≤ it.bytes.len →
        ∃ it3, it.skipVns vns = .ok it3) := by
  intro it it2 w u b b1 b2 vns fuel
  refine ⟨?_, ?_, ?_, ?_⟩
  · intro h
    exact ⟨(vnsFromBytes_ok h).1, (vnsFromBytes_ok h).2.1⟩
  · intro hw hbit hset hAl hVns
    exact ⟨(align_ok hAl).2.2.1, nextGo_step30 hw hbit hset hAl hVns fuel⟩
  · intro h
    exact ⟨(skipVns_ok h).1, (skipVns_ok h).2.1⟩
  · exact skipVns_fits

/-- Witness for C7 at a concrete capture state: descriptor bytes
`[1, 2, 3, 5, 7, 0]` at an aligned offset 0 (OUI 01:02:03, sub-namespace 5,
skip length 7), followed by a skip from offset 6 over 7 bytes of a 13-byte
buffer. -/
theorem c7_vendorSkip_witness :
    ((⟨[1, 2, 3, 5, 7, 0], 6⟩ : Bytes) = ⟨[1, 2, 3, 5, 7, 0], 0 + 6⟩
      ∧ (7 : Nat) = sliceLE [1, 2, 3, 5, 7, 0] (0 + 4) 2)
    ∧ ((⟨[0, 0, 0, 0, 0, 0, 0, 0, 0, 0, 0, 0, 0], 13⟩ : Bytes).pos
        = (⟨[0, 0, 0, 0, 0, 0, 0, 0, 0, 0, 0, 0, 0], 6⟩ : Bytes).pos + 7
      ∧ ([0, 0, 0, 0, 0, 0, 0, 0, 0, 0, 0, 0, 0] : List Nat)
        = [0, 0, 0, 0, 0, 0, 0, 0, 0, 0, 0, 0, 0]) := by
  constructor
  · exact (c7_vendorSkip ⟨⟨[], 0⟩, 0, [], 0, .default⟩ ⟨⟨[], 0⟩, 0, [], 0, .default⟩
      0 () ⟨[1, 2, 3, 5, 7, 0], 0⟩ ⟨[], 0⟩ ⟨[1, 2, 3, 5, 7, 0], 6⟩
      ⟨[1, 2, 3], 5, 7⟩ 0).1 (by decide)
  · exact (c7_vendorSkip
      ⟨⟨[0, 0, 0, 0, 0, 0, 0, 0, 0, 0, 0, 0, 0], 6⟩, 0, [], 0, .default⟩
      ⟨⟨[0, 0, 0, 0, 0, 0, 0, 0, 0, 0, 0, 0, 0], 13⟩, 0, [], 0, .default⟩
      0 () ⟨[], 0⟩ ⟨[], 0⟩ ⟨[], 0⟩ ⟨[1, 2, 3], 5, 7⟩ 0).2.2.1 (by decide)

/-- C8: forward compatibility with unknown presence bits.  (a) whenever the
walker yields a default-namespace field whose bit resolves to no defined
kind, `IterDefault::next` immediately returns cleanly (no error) with the
iterator state exactly as the inner `next` left it — the byte cursor is not
advanced; (b) `parse` returns Ok on captures whose single presence word
sets only an unassigned bit (each of 23–28 checked). -/
theorem c8_forwardCompat :
    (∀ (fuel : Nat) (it it2 : Iter) (f : RField),
        Iter.next it = .ok (some f, it2) → f.ns = .default →
        FType.fromBit f.bit = none →
        IterDefault.nextGo (fuel + 1) it = .ok (none, it2))
    ∧ ∀ pw ∈ [[0, 0, 128, 0], [0, 0, 0, 1], [0, 0, 0, 2],
        [0, 0, 0, 4], [0, 0, 0, 8], [0, 0, 0, 16]],
        parse ([0, 0, 8, 0] ++ pw) = .ok { length := 8 } := by
  constructor
  · intro fuel it it2 f h hns hbit
    simp only [IterDefault.nextGo, h]
    rcases f with ⟨ns, bit⟩
    simp only at hns hbit
    subst hns
    simp [hbit]
  · intro pw hpw
    fin_cases hpw <;> decide

/-- Witness for C8: a presence word with only bit 28 set makes
`IterDefault::next` return end-of-fields with the cursor untouched, and the
corresponding 8-byte capture parses to an empty `Header`. -/
theorem c8_forwardCompat_witness :
    IterDefault.nextGo 1 ⟨⟨[], 0⟩, 0, [268435456], 0, .default⟩ =
      .ok (none, ⟨⟨[], 0⟩, 0, [268435456], 29, .default⟩)
    ∧ parse [0, 0, 8, 0, 0, 0, 0, 16] = .ok { length := 8 } := by
  constructor
  · exact c8_forwardCompat.1 0 ⟨⟨[], 0⟩, 0, [268435456], 0, .default⟩
      ⟨⟨[], 0⟩, 0, [268435456], 29, .default⟩ ⟨.default, 28⟩
      (by decide) rfl (by decide)
  · exact c8_forwardCompat.2 [0, 0, 0, 16] (by decide)

/-- C9: the byte cursor is bounds-checked.  For `advance`, `align` and
`read_slice`: a success moves the position by exactly the requested amount
(to the next multiple for `align`), keeps the position within the buffer
length and never touches the underlying bytes; a failure occurs exactly
when the prospective position would pass the end, and it returns the cursor
completely unchanged. -/
theorem c9_cursorBounds : ∀ (b : Bytes) (n a : Nat),
    (∀ u b2, b.advance n = .ok u b2 →
        b2.inner = b.inner ∧ b2.pos = b.pos + n ∧ b2.pos ≤ b2.len)
    ∧ (∀ e b2, b.advance n = .err e b2 → b2 = b ∧ b.pos + n > b.len)
    ∧ (∀ u b2, b.align a = .ok u b2 →
        b2.inner = b.inner ∧ b2.pos % a = 0 ∧ b.pos ≤ b2.pos ∧ b2.pos ≤ b2.len)
    ∧ (∀ e b2, b.align a = .err e b2 → b2 = b)
    ∧ (∀ s b2, b.readSlice n = .ok s b2 →
        b2.inner = b.inner ∧ b2.pos = b.pos + n ∧ b2.pos ≤ b2.len)
    ∧ (∀ e b2, b.readSlice n = .err e b2 → b2 = b ∧ b.pos + n > b.len) := by
  intro b n a
  refine ⟨?_, ?_, ?_, ?_, ?_, ?_⟩
  · intro u b2 h
    exact advance_ok h
  · intro e b2 h
    exact advance_err h
  · intro u b2 h
    obtain ⟨-, h1, h2, h3, h4⟩ := align_ok h
    exact ⟨h1, h2, h3, h4⟩
  · intro e b2 h
    exact align_err h
  · intro s b2 h
    obtain ⟨h1, -, h3⟩ := readSlice_ok h
    subst h1
    exact ⟨rfl, rfl, by simpa [Bytes.len] using h3⟩
  · intro e b2 h
    exact readSlice_err h

/-- Witness for C9 on a 3-byte buffer: a successful advance from offset 1
by 1, and a failed advance from offset 2 by 5 that leaves the cursor
unchanged. -/
theorem c9_cursorBounds_witness :
    (([0, 0, 0] : List Nat) = [0, 0, 0] ∧ (2 : Nat) = 1 + 1 ∧ (2 : Nat) ≤ 3)
    ∧ (Bytes.mk [0, 0, 0] 2 = Bytes.mk [0, 0, 0] 2 ∧ 2 + 5 > 3) := by
  constructor
  · exact (c9_cursorBounds ⟨[0, 0, 0], 1⟩ 1 2).1 () ⟨[0, 0, 0], 2⟩ (by decide)
  · exact (c9_cursorBounds ⟨[0, 0, 0], 2⟩ 5 2).2.1 ⟨5, 3, 2⟩ ⟨[0, 0, 0], 2⟩
      (by decide)

/-- C10: `parse` is total and panic-free on every input: every field kind's
declared alignment is an admissible argument of `Bytes::align`'s assertion
(one of 1, 2, 4, 8), the vendor-descriptor path aligns to 2, and the parse
of any byte list completes with Ok or a typed error — never the `fatal`
outcome that models a panic. -/
theorem c10_noPanic :
    (∀ t : FType, validAlign t.align = true)
    ∧ validAlign 2 = true
    ∧ ∀ capture : List Nat, (parse capture).completes = true := by
  refine ⟨ftype_validAlign, by decide, ?_⟩
  intro capture
  cases h : parse capture with
  | ok a => rfl
  | err e => rfl
  | fatal => exact absurd h (parse_ne_fatal capture)

end Radiotap
